import Mathlib

/-!
Verification of the beer-festival single-page application core logic:
record extraction from tabular input, ABV parsing, style classification,
the filter engine, the sort engine, and the availability overlay.

The JavaScript source is embedded shallowly: rows of the scraped HTML
table become lists of cell strings, the DOM-free core functions become
Lean functions, JavaScript runtime errors (a TypeError raised inside a
filter callback) become the error branch of an Except value, and the
remote availability table becomes an explicit list of rows threaded
through the toggle operation.
-/

namespace Chappel

/-! String helpers mirroring the JavaScript primitives used by the app:
String.prototype.toLowerCase and String.prototype.includes. -/

/-- Lower-cased character list of a string, modelling s.toLowerCase(). -/
def lowerChars (s : String) : List Char :=
  s.data.map Char.toLower

/-- Whether the pattern (first argument) occurs at the start of the text. -/
def listStartsWith : List Char → List Char → Bool
  | [], _ => true
  | _ :: _, [] => false
  | p :: ps, c :: cs => p == c && listStartsWith ps cs

/-- Whether the pattern (second argument) occurs as a contiguous substring
of the text (first argument), modelling text.includes(pattern). -/
def listHasSub : List Char → List Char → Bool
  | [], pat => listStartsWith pat []
  | c :: t, pat => listStartsWith pat (c :: t) || listHasSub t pat

/-! ABV parsing. The source matches the regular expression
(\d+\.?\d*) against the ABV text and applies parseFloat to the first
match, defaulting to 0 when there is no match. -/

/-- Numeric value of a list of decimal digit characters. -/
def digitsVal (l : List Char) : Nat :=
  l.foldl (fun a c => 10 * a + (c.toNat - 48)) 0

/-- Rational value of a token made of integer digits and fraction digits:
the decimal number whose integer part is the first list and whose
fractional digits are the second list. -/
def tokenRat (intd frac : List Char) : Rat :=
  mkRat (digitsVal intd * 10 ^ frac.length + digitsVal frac) (10 ^ frac.length)

/-- Greedy match of digits, an optional dot, and digits, starting at the
head of the list; returns the integer digits and the fraction digits. -/
def numTokenAt (l : List Char) : List Char × List Char :=
  let intd := l.takeWhile Char.isDigit
  let rest := l.dropWhile Char.isDigit
  match rest with
  | '.' :: rest2 => (intd, rest2.takeWhile Char.isDigit)
  | _ => (intd, [])

/-- First match of the regular expression (\d+\.?\d*) in the character
list, scanning left to right. -/
def findTokenChars : List Char → Option (List Char × List Char)
  | [] => none
  | c :: cs => if c.isDigit then some (numTokenAt (c :: cs)) else findTokenChars cs

/-- Embedding of parseABV from the source: extract the first numeric
token and convert it, defaulting to 0 when no token is present. -/
def parseABV (s : String) : Rat :=
  match findTokenChars s.data with
  | some (i, f) => tokenRat i f
  | none => 0

/-- Whitespace trimming on character lists, modelling s.trim() from the
source: leading and trailing whitespace characters are removed. -/
def trimChars (l : List Char) : List Char :=
  ((l.dropWhile Char.isWhitespace).reverse.dropWhile Char.isWhitespace).reverse

/-- String form of the whitespace trim used by the extractor. -/
def strTrim (s : String) : String :=
  String.mk (trimChars s.data)

/-! Style classifier. -/

/-- Embedding of the coreTypes rule table from extractCleanBeerStyle,
in source order: keyword sets paired with canonical categories. -/
def coreTypes : List (List String × String) :=
  [ (["ipa", "india pale ale"], "IPA"),
    (["bitter"], "Bitter"),
    (["golden ale", "golden"], "Golden Ale"),
    (["pale ale"], "Pale Ale"),
    (["amber ale"], "Amber Ale"),
    (["brown ale"], "Brown Ale"),
    (["mild"], "Mild"),
    (["old ale"], "Old Ale"),
    (["strong ale"], "Strong Ale"),
    (["barley wine"], "Barley Wine"),
    (["stout"], "Stout"),
    (["porter"], "Porter"),
    (["wheat", "weizen", "witbier"], "Wheat Beer"),
    (["pilsner", "pils"], "Pilsner"),
    (["lager"], "Lager"),
    (["saison"], "Saison"),
    (["sour", "gose", "lambic"], "Sour"),
    (["cider"], "Cider"),
    (["perry"], "Perry"),
    (["ale"], "Ale") ]

/-- Top-to-bottom scan of the rule table: the first rule one of whose
keywords occurs in the lower-cased style text wins. -/
def findCategory : List (List String × String) → List Char → Option String
  | [], _ => none
  | (kws, cat) :: rest, ls =>
      if kws.any (fun k => listHasSub ls k.data) then some cat
      else findCategory rest ls

/-- Embedding of extractCleanBeerStyle from the source: lower-case the
input and scan the rule table; none models the null returned when no
rule matches. -/
def extractCleanBeerStyle (styleText : String) : Option String :=
  findCategory coreTypes (lowerChars styleText)

/-! Record extraction. -/

/-- Embedding of the beer record built by parseHtmlData. The field abv
stores the number produced by parseABV, as in the source. -/
structure BeerRecord where
  brewery : String
  beer : String
  style : String
  abv : Rat
  location : String
  bar : String
deriving Repr, DecidableEq

/-- Embedding of the per-row branch of parseHtmlData: a row is a list of
cell strings; rows with fewer than 6 cells, an empty trimmed brewery or
beer name, or the literal header brewery are skipped. -/
def rowToBeer (cells : List String) : Option BeerRecord :=
  if cells.length ≥ 6 then
    let brewery := strTrim (cells.getD 0 "")
    let beer := strTrim (cells.getD 1 "")
    let style := strTrim (cells.getD 2 "")
    let abvText := strTrim (cells.getD 3 "")
    let location := strTrim (cells.getD 4 "")
    let bar := strTrim (cells.getD 5 "")
    if brewery ≠ "" ∧ beer ≠ "" ∧ brewery ≠ "Brewery" then
      some { brewery := brewery, beer := beer, style := style,
             abv := parseABV abvText, location := location, bar := bar }
    else none
  else none

/-- Accumulator loop of parseHtmlData over the document rows. -/
def parseLoop : List (List String) → List BeerRecord → List BeerRecord
  | [], acc => acc
  | row :: rest, acc =>
      match rowToBeer row with
      | some b => parseLoop rest (acc ++ [b])
      | none => parseLoop rest acc

/-- Embedding of parseHtmlData: scan every row, and fail with the error
thrown by the source when no qualifying row was found. -/
def parseHtmlData (rows : List (List String)) : Except String (List BeerRecord) :=
  if (parseLoop rows []).isEmpty then
    Except.error "No beer data found in the response"
  else Except.ok (parseLoop rows [])

/-- Qualifying predicate stated from the claim wording, for comparison
with the extractor: at least 6 cells, non-empty trimmed brewery and
name, and brewery not the literal header label. -/
def specQualifies (cells : List String) : Bool :=
  decide (6 ≤ cells.length) &&
  strTrim (cells.getD 0 "") != "" &&
  strTrim (cells.getD 1 "") != "" &&
  strTrim (cells.getD 0 "") != "Brewery"

/-- Record builder stated from the claim wording: cell positions 0
through 5, whitespace-trimmed, with the ABV text parsed. -/
def specExtract (cells : List String) : BeerRecord :=
  { brewery := strTrim (cells.getD 0 "")
    beer := strTrim (cells.getD 1 "")
    style := strTrim (cells.getD 2 "")
    abv := parseABV (strTrim (cells.getD 3 ""))
    location := strTrim (cells.getD 4 "")
    bar := strTrim (cells.getD 5 "") }

theorem rowToBeer_eq (cells : List String) :
    rowToBeer cells = if specQualifies cells then some (specExtract cells) else none := by
  unfold rowToBeer specQualifies specExtract
  by_cases h6 : cells.length ≥ 6 <;>
    simp [h6, Bool.and_assoc, and_assoc, decide_eq_true_eq]

theorem parseLoop_eq (rows : List (List String)) (acc : List BeerRecord) :
    parseLoop rows acc = acc ++ rows.filterMap rowToBeer := by
  induction rows generalizing acc with
  | nil => simp [parseLoop]
  | cons row rest ih =>
      cases h : rowToBeer row <;> simp [parseLoop, h, ih]

theorem filterMap_rowToBeer (rows : List (List String)) :
    rows.filterMap rowToBeer = (rows.filter specQualifies).map specExtract := by
  induction rows with
  | nil => simp
  | cons row rest ih =>
      rw [List.filterMap_cons, rowToBeer_eq]
      by_cases h : specQualifies row <;> simp [h, ih, List.filter_cons]

/-- C1: for every tabular input with at least one qualifying row, extraction
returns exactly the rows with at least 6 cells, non-empty trimmed brewery and
name, and brewery not the literal header label, each record taking its fields
from cell positions 0 through 5 with whitespace trimmed, in input row order. -/
theorem extraction_exact (rows : List (List String))
    (h : ∃ r ∈ rows, specQualifies r = true) :
    parseHtmlData rows = Except.ok ((rows.filter specQualifies).map specExtract) := by
  have hne : rows.filter specQualifies ≠ [] := by
    obtain ⟨r, hr, hq⟩ := h
    intro hnil
    have hm : r ∈ rows.filter specQualifies := List.mem_filter.mpr ⟨hr, hq⟩
    rw [hnil] at hm
    exact absurd hm (List.not_mem_nil r)
  unfold parseHtmlData
  rw [parseLoop_eq, List.nil_append, filterMap_rowToBeer]
  have hfalse : ((rows.filter specQualifies).map specExtract).isEmpty = false := by
    simp [List.isEmpty_iff, hne]
  rw [hfalse]
  simp

theorem extraction_exact_witness :
    (∃ r ∈ [["Brewer A", "Golden", "Golden Ale, 4.2%", "4.2%", "Tent 1", "Bar X"],
            ["Brewery", "Beer", "Style", "ABV", "Location", "Bar"]],
        specQualifies r = true) ∧
    parseHtmlData
        [["Brewer A", "Golden", "Golden Ale, 4.2%", "4.2%", "Tent 1", "Bar X"],
         ["Brewery", "Beer", "Style", "ABV", "Location", "Bar"]]
      = Except.ok [{ brewery := "Brewer A", beer := "Golden",
                     style := "Golden Ale, 4.2%", abv := mkRat 42 10,
                     location := "Tent 1", bar := "Bar X" }] ∧
    mkRat 42 10 = (4.2 : Rat) := by
  refine ⟨by decide, ?_, by rw [Rat.mkRat_eq_divInt]; norm_num [Rat.divInt_eq_div]⟩
  rw [extraction_exact _ (by decide)]
  rfl

/-- C3: extraction fails with the extraction error exactly when zero
qualifying rows are found in the whole input, and in that case no record
list is produced; with at least one qualifying row it does not fail. -/
theorem extraction_error_iff (rows : List (List String)) :
    parseHtmlData rows = Except.error "No beer data found in the response"
      ↔ ∀ r ∈ rows, specQualifies r = false := by
  constructor
  · intro h r hr
    by_contra hq
    rw [Bool.not_eq_false] at hq
    have hmem : specExtract r ∈ (rows.filter specQualifies).map specExtract :=
      List.mem_map_of_mem _ (List.mem_filter.mpr ⟨hr, hq⟩)
    unfold parseHtmlData at h
    rw [parseLoop_eq, List.nil_append, filterMap_rowToBeer] at h
    cases hl : (rows.filter specQualifies).map specExtract with
    | nil => rw [hl] at hmem; exact absurd hmem (List.not_mem_nil _)
    | cons x xs => rw [hl] at h; simp [List.isEmpty] at h
  · intro h
    have hfil : rows.filter specQualifies = [] := by
      rw [List.filter_eq_nil_iff]
      intro r hr
      simp [h r hr]
    unfold parseHtmlData
    rw [parseLoop_eq, List.nil_append, filterMap_rowToBeer, hfil]
    rfl

theorem findTokenChars_of_clean (p s : List Char)
    (h : ∀ c ∈ p, c.isDigit = false) :
    findTokenChars (p ++ s) = findTokenChars s := by
  induction p with
  | nil => rfl
  | cons c t ih =>
      have hc := h c (by simp)
      rw [List.cons_append]
      simp only [findTokenChars, hc]
      simp only [Bool.false_eq_true, if_false]
      exact ih (fun d hd => h d (by simp [hd]))

theorem findTokenChars_none (l : List Char) (h : ∀ c ∈ l, c.isDigit = false) :
    findTokenChars l = none := by
  have hp := findTokenChars_of_clean l [] h
  simpa using hp

/-- C4: parseABV extracts the first numeric token of the input and returns
its value, with 0 when no numeric token occurs; a leading run of non-digit
characters is skipped, and in particular parseABV of the string 4.5% is 4.5,
of the string N/A is 0, and of the string 5 is 5. -/
theorem parseABV_spec :
    parseABV "4.5%" = 4.5 ∧ parseABV "N/A" = 0 ∧ parseABV "5" = 5 ∧
    (∀ p s : List Char, (∀ c ∈ p, c.isDigit = false) →
        findTokenChars (p ++ s) = findTokenChars s) ∧
    (∀ s : String, (∀ c ∈ s.data, c.isDigit = false) → parseABV s = 0) := by
  refine ⟨?_, by decide, by decide, findTokenChars_of_clean, ?_⟩
  · have h1 : parseABV "4.5%" = mkRat 45 10 := by decide
    rw [h1, Rat.mkRat_eq_divInt]
    norm_num [Rat.divInt_eq_div]
  · intro s h
    unfold parseABV
    rw [findTokenChars_none s.data h]

theorem parseABV_spec_witness : parseABV "no abv stated" = 0 :=
  parseABV_spec.2.2.2.2 "no abv stated" (by decide)

theorem findCategory_eq (l : List (List String × String)) (ls : List Char) :
    findCategory l ls
      = (l.find? (fun t => t.1.any (fun k => listHasSub ls k.data))).map Prod.snd := by
  induction l with
  | nil => rfl
  | cons t rest ih =>
      obtain ⟨kws, cat⟩ := t
      by_cases h : (kws.any (fun k => listHasSub ls k.data) : Bool) <;>
        simp [findCategory, List.find?_cons, h, ih]

/-- C2: the style classifier lower-cases its input and scans the fixed rule
table top to bottom with first match winning, a rule matching when one of
its keywords is a substring of the lower-cased input; on the inputs named
by the claim it returns IPA, Bitter, and the unclassified result. -/
theorem extractCleanBeerStyle_spec :
    extractCleanBeerStyle "India Pale Ale, 5.2%" = some "IPA" ∧
    extractCleanBeerStyle "Best Bitter" = some "Bitter" ∧
    extractCleanBeerStyle "Unknown Fruit Thing" = none ∧
    (∀ s : String, extractCleanBeerStyle s
        = (coreTypes.find?
            (fun t => t.1.any (fun k => listHasSub (lowerChars s) k.data))).map
            Prod.snd) :=
  ⟨by decide, by decide, by decide,
   fun s => findCategory_eq coreTypes (lowerChars s)⟩

/-! Availability overlay: the in-memory cache loaded from the remote
availability table, keyed by the composite string brewery|name. -/

/-- Embedding of the cached availability value stored per composite key;
updated_at models the stored timestamp as a number of milliseconds. -/
structure AvailRow where
  is_available : Bool
  updated_by : String
  updated_at : Nat
deriving Repr, DecidableEq

/-- Embedding of the composite key built throughout the source as the
brewery, a vertical bar, and the beer name. -/
def availabilityKey (brewery beer : String) : String :=
  brewery ++ "|" ++ beer

/-- Lookup in the in-memory availability map, modelled as an association
list from composite keys to cached rows. -/
def mapGet (m : List (String × AvailRow)) (k : String) : Option AvailRow :=
  (m.find? (fun e => e.1 == k)).map Prod.snd

/-- Embedding of getBeerAvailability: the cached boolean, with false for
records that have no availability entry. -/
def getBeerAvailability (m : List (String × AvailRow)) (b : BeerRecord) : Bool :=
  match mapGet m (availabilityKey b.brewery b.beer) with
  | some d => d.is_available
  | none => false

/-! Filter engine. -/

/-- Embedding of the criteria read from the form controls before each
filter pass. -/
structure FilterCriteria where
  searchText : String
  selectedBar : String
  selectedStyle : String
  selectedAvailability : String
  minABV : Rat
  maxABV : Rat
deriving Repr, DecidableEq

/-- Search clause of filterBeers: empty search passes, otherwise a
case-insensitive substring match on brewery, name, raw style or location. -/
def matchesSearch (searchTerm : List Char) (b : BeerRecord) : Bool :=
  searchTerm.isEmpty ||
  listHasSub (lowerChars b.brewery) searchTerm ||
  listHasSub (lowerChars b.beer) searchTerm ||
  listHasSub (lowerChars b.style) searchTerm ||
  listHasSub (lowerChars b.location) searchTerm

/-- Bar clause of filterBeers: empty filter passes, otherwise exact match. -/
def matchesBar (selectedBar : String) (b : BeerRecord) : Bool :=
  selectedBar == "" || b.bar == selectedBar

/-- Style clause of filterBeers. The source calls toLowerCase on the
result of extractCleanBeerStyle, which is null for an unclassified style,
so with a non-empty style filter an unclassified record makes the
callback throw a TypeError; the error branch models that thrown error. -/
def matchesStyleClause (selectedStyle : String) (b : BeerRecord) :
    Except String Bool :=
  if selectedStyle == "" then Except.ok true
  else
    match extractCleanBeerStyle b.style with
    | none => Except.error "TypeError: cannot call toLowerCase of null"
    | some cat =>
        Except.ok (listHasSub (lowerChars cat) (lowerChars selectedStyle) ||
          listHasSub (lowerChars b.style) (lowerChars selectedStyle))

/-- Availability clause of filterBeers. -/
def matchesAvailability (sel : String) (isAvail : Bool) : Bool :=
  sel == "" || (sel == "available" && isAvail) || (sel == "unavailable" && !isAvail)

/-- ABV clause of filterBeers: both bounds inclusive. -/
def matchesABV (minA maxA : Rat) (b : BeerRecord) : Bool :=
  decide (minA ≤ b.abv) && decide (b.abv ≤ maxA)

/-- The filter callback of filterBeers, evaluating the five clauses in
source order; a thrown TypeError aborts the whole pass. -/
def beerPasses (c : FilterCriteria) (m : List (String × AvailRow))
    (b : BeerRecord) : Except String Bool :=
  let ms := matchesSearch (lowerChars c.searchText) b
  let mb := matchesBar c.selectedBar b
  match matchesStyleClause c.selectedStyle b with
  | Except.error e => Except.error e
  | Except.ok msty =>
      let mav := matchesAvailability c.selectedAvailability (getBeerAvailability m b)
      let mabv := matchesABV c.minABV c.maxABV b
      Except.ok (ms && mb && msty && mav && mabv)

/-- Boolean form of a successful pass of the filter callback. -/
def passesBool (c : FilterCriteria) (m : List (String × AvailRow))
    (b : BeerRecord) : Bool :=
  match beerPasses c m b with
  | Except.ok true => true
  | _ => false

/-- Sequential filtering with a fallible predicate, modelling
Array.prototype.filter over a callback that may throw. -/
def filterExcept {α ε : Type} (p : α → Except ε Bool) : List α → Except ε (List α)
  | [] => Except.ok []
  | x :: xs =>
      match p x with
      | Except.error e => Except.error e
      | Except.ok b =>
          match filterExcept p xs with
          | Except.error e => Except.error e
          | Except.ok rest => Except.ok (if b then x :: rest else rest)

/-- Embedding of filterBeers over an explicit record list, criteria and
availability map. -/
def filterBeers (c : FilterCriteria) (m : List (String × AvailRow))
    (beers : List BeerRecord) : Except String (List BeerRecord) :=
  filterExcept (beerPasses c m) beers

/-- Concrete record whose raw style matches no classifier rule. -/
def fruitBeer : BeerRecord :=
  { brewery := "Acme", beer := "Odd One", style := "Unknown Fruit Thing",
    abv := mkRat 4 1, location := "Tent 2", bar := "Bar 1" }

/-- C5 failing input: on an unclassified record with a non-empty style
filter the source calls toLowerCase on the null returned by
extractCleanBeerStyle, so the style clause throws instead of passing the
record by its raw-style substring match; the whole filter pass aborts
with that error. -/
theorem styleClause_null_bug :
    extractCleanBeerStyle "Unknown Fruit Thing" = none ∧
    listHasSub (lowerChars "Unknown Fruit Thing") (lowerChars "fruit") = true ∧
    matchesStyleClause "fruit" fruitBeer
      = Except.error "TypeError: cannot call toLowerCase of null" ∧
    filterBeers
        { searchText := "", selectedBar := "", selectedStyle := "fruit",
          selectedAvailability := "", minABV := 0, maxABV := mkRat 10 1 }
        [] [fruitBeer]
      = Except.error "TypeError: cannot call toLowerCase of null" :=
  ⟨by decide, by decide, rfl, rfl⟩

/-- Concrete records with ABVs 3, 4, 5, 6 and 7 for the range filter. -/
def beer3 : BeerRecord :=
  { brewery := "Brew3", beer := "Three", style := "Pale Ale", abv := 3,
    location := "L3", bar := "Bar 1" }

def beer4 : BeerRecord :=
  { brewery := "Brew4", beer := "Four", style := "Stout", abv := 4,
    location := "L4", bar := "Bar 1" }

def beer5 : BeerRecord :=
  { brewery := "Brew5", beer := "Five", style := "Porter", abv := 5,
    location := "L5", bar := "Bar 2" }

def beer6 : BeerRecord :=
  { brewery := "Brew6", beer := "Six", style := "Lager", abv := 6,
    location := "L6", bar := "Bar 2" }

def beer7 : BeerRecord :=
  { brewery := "Brew7", beer := "Seven", style := "Mild", abv := 7,
    location := "L7", bar := "Bar 3" }

def abvTestBeers : List BeerRecord := [beer3, beer4, beer5, beer6, beer7]

/-- Criteria with only the ABV range active, bounds 4 and 6. -/
def abvCriteria : FilterCriteria :=
  { searchText := "", selectedBar := "", selectedStyle := "",
    selectedAvailability := "", minABV := 4, maxABV := 6 }

/-- C6: the ABV clause passes a record exactly when its ABV lies between
the bounds inclusively; filtering records with ABVs 3, 4, 5, 6, 7 by the
range 4 to 6 yields exactly those with ABV 4, 5 and 6; and a record with
unparsed ABV stored as 0 is excluded whenever the lower bound is
positive. -/
theorem matchesABV_spec :
    (∀ (minA maxA : Rat) (b : BeerRecord),
        matchesABV minA maxA b = true ↔ minA ≤ b.abv ∧ b.abv ≤ maxA) ∧
    filterBeers abvCriteria [] abvTestBeers = Except.ok [beer4, beer5, beer6] ∧
    (∀ (minA maxA : Rat) (b : BeerRecord),
        b.abv = 0 → 0 < minA → matchesABV minA maxA b = false) := by
  refine ⟨?_, rfl, ?_⟩
  · intro minA maxA b
    simp [matchesABV]
  · intro minA maxA b h0 hpos
    unfold matchesABV
    rw [h0]
    have hnot : ¬ (minA ≤ (0 : Rat)) := not_le.mpr hpos
    simp [hnot]

theorem matchesABV_spec_witness :
    matchesABV 2 8
      { brewery := "B", beer := "No stated ABV", style := "Ale", abv := 0,
        location := "L", bar := "Bar 1" } = false :=
  matchesABV_spec.2.2 2 8 _ rfl (by decide)

theorem filterExcept_ok_eq {α ε : Type} (p : α → Except ε Bool)
    (q : α → Bool) (hq : ∀ a, q a = true ↔ p a = Except.ok true) :
    ∀ (l out : List α), filterExcept p l = Except.ok out → out = l.filter q := by
  intro l
  induction l with
  | nil =>
      intro out h
      simp [filterExcept] at h
      rw [h]
      rfl
  | cons x xs ih =>
      intro out h
      cases hx : p x with
      | error e => simp [filterExcept, hx] at h
      | ok b =>
          cases hrest : filterExcept p xs with
          | error e => simp [filterExcept, hx, hrest] at h
          | ok rest =>
              simp [filterExcept, hx, hrest] at h
              have hr := ih rest hrest
              have hqx := hq x
              rw [hx] at hqx
              cases b
              · have hqf : q x = false := by
                  rw [← Bool.not_eq_true]
                  intro hc
                  exact absurd (hqx.mp hc) (by simp)
                rw [← h, hr, List.filter_cons, hqf]
              · have hqt : q x = true := hqx.mpr rfl
                rw [← h, hr, List.filter_cons, hqt]

theorem filterExcept_all {α ε : Type} (p : α → Except ε Bool) :
    ∀ l : List α, (∀ a ∈ l, p a = Except.ok true) →
      filterExcept p l = Except.ok l := by
  intro l
  induction l with
  | nil => intro _; rfl
  | cons x xs ih =>
      intro h
      have hx := h x (by simp)
      have hxs := ih (fun a ha => h a (by simp [ha]))
      simp [filterExcept, hx, hxs]

/-- C7: when the filter pass succeeds, its output is the subsequence of
the input records, in input order, of records satisfying the conjunction
of the clauses; filtering that output again with the same criteria and
availability lookup succeeds and returns it unchanged. -/
theorem filterBeers_idempotent (c : FilterCriteria)
    (m : List (String × AvailRow)) (beers out : List BeerRecord)
    (h : filterBeers c m beers = Except.ok out) :
    out.Sublist beers ∧
    out = beers.filter (passesBool c m) ∧
    filterBeers c m out = Except.ok out := by
  have hq : ∀ a, passesBool c m a = true ↔ beerPasses c m a = Except.ok true := by
    intro a
    unfold passesBool
    cases hb : beerPasses c m a with
    | error e => simp
    | ok v => cases v <;> simp
  have hout := filterExcept_ok_eq (beerPasses c m) (passesBool c m) hq beers out h
  refine ⟨?_, hout, ?_⟩
  · rw [hout]
    exact List.filter_sublist _
  · apply filterExcept_all
    intro a ha
    rw [hout] at ha
    exact (hq a).mp (List.mem_filter.mp ha).2

theorem filterBeers_idempotent_witness :
    List.Sublist [beer4, beer5, beer6] abvTestBeers ∧
    [beer4, beer5, beer6] = abvTestBeers.filter (passesBool abvCriteria []) ∧
    filterBeers abvCriteria [] [beer4, beer5, beer6]
      = Except.ok [beer4, beer5, beer6] :=
  filterBeers_idempotent abvCriteria [] abvTestBeers [beer4, beer5, beer6] rfl

/-! Sort engine. -/

/-- Sort direction of the single global sort state. -/
inductive SortDir where
  | asc : SortDir
  | desc : SortDir
deriving Repr, DecidableEq

/-- Direction flip used when the active column is clicked again. -/
def flipDir : SortDir → SortDir
  | SortDir.asc => SortDir.desc
  | SortDir.desc => SortDir.asc

/-- Embedding of currentSort: the active column, if any, and direction. -/
structure SortState where
  column : Option String
  direction : SortDir
deriving Repr, DecidableEq

/-- Embedding of the state update at the top of sortTable: the active
column flips direction, any other column becomes active ascending. -/
def toggleSort (st : SortState) (col : String) : SortState :=
  if st.column = some col then ⟨st.column, flipDir st.direction⟩
  else ⟨some col, SortDir.asc⟩

/-- Three-way comparison returning -1, 0 or 1, as built by the comparator
body of sortTable. -/
def threeWay {β : Type} [LinearOrder β] (x y : β) : Int :=
  if x < y then -1 else if y < x then 1 else 0

/-- Sort key of the derived last_seen column: the stored timestamp when
the cached entry exists, has a truthy timestamp and is marked available,
else 0. -/
def lastSeenVal (m : List (String × AvailRow)) (b : BeerRecord) : Nat :=
  match mapGet m (availabilityKey b.brewery b.beer) with
  | some r => if r.updated_at != 0 && r.is_available then r.updated_at else 0
  | none => 0

/-- Dynamic field access a[column] for the string-valued columns. -/
def fieldStr (col : String) (b : BeerRecord) : String :=
  if col = "brewery" then b.brewery
  else if col = "beer" then b.beer
  else if col = "style" then b.style
  else if col = "location" then b.location
  else if col = "bar" then b.bar
  else ""

/-- Lower-cased string, the form compared for string-valued columns. -/
def lowerStr (s : String) : String :=
  String.mk (lowerChars s)

/-- Embedding of the comparator body of sortTable for a fixed column:
numeric for abv, timestamp for last_seen, lower-cased lexicographic for
the other columns. -/
def sortComparator (col : String) (m : List (String × AvailRow))
    (a b : BeerRecord) : Int :=
  if col = "abv" then threeWay a.abv b.abv
  else if col = "last_seen" then threeWay (lastSeenVal m a) (lastSeenVal m b)
  else threeWay (lowerStr (fieldStr col a)) (lowerStr (fieldStr col b))

/-- Direction adjustment of the comparator result: descending negates. -/
def dirSign : SortDir → Int → Int
  | SortDir.asc, r => r
  | SortDir.desc, r => -r

/-- Non-strict order tested by the sort: comparator result at most 0. -/
def sortLe (col : String) (m : List (String × AvailRow)) (d : SortDir)
    (a b : BeerRecord) : Bool :=
  decide (dirSign d (sortComparator col m a b) ≤ 0)

/-- Embedding of sortTable: update the sort state for the clicked column
and stably sort the records by the direction-adjusted comparator. -/
def sortTable (st : SortState) (m : List (String × AvailRow))
    (records : List BeerRecord) (col : String) : SortState × List BeerRecord :=
  let st2 := toggleSort st col
  (st2, records.mergeSort (sortLe col m st2.direction))

theorem threeWay_nonpos {β : Type} [LinearOrder β] (x y : β) :
    threeWay x y ≤ 0 ↔ x ≤ y := by
  unfold threeWay
  by_cases h1 : x < y
  · simp [h1]
    exact le_of_lt h1
  · by_cases h2 : y < x
    · simp [h1, h2]
    · simp [h1, h2]
      exact not_lt.mp h2

theorem threeWay_nonneg {β : Type} [LinearOrder β] (x y : β) :
    0 ≤ threeWay x y ↔ y ≤ x := by
  unfold threeWay
  by_cases h1 : x < y
  · simp [h1]
  · by_cases h2 : y < x
    · simp [h1, h2]
      exact le_of_lt h2
    · simp [h1, h2]
      exact not_lt.mp h1

theorem threeWay_ne_zero {β : Type} [LinearOrder β] (x y : β) :
    threeWay x y ≠ 0 ↔ x ≠ y := by
  unfold threeWay
  by_cases h1 : x < y
  · simp [h1]
    exact ne_of_lt h1
  · by_cases h2 : y < x
    · simp [h1, h2]
      exact (ne_of_lt h2).symm
    · simp [h1, h2]
      exact le_antisymm (not_lt.mp h2) (not_lt.mp h1)

theorem pairwise_key_asc {α β : Type} [LinearOrder β] (k : α → β) (l : List α) :
    (l.mergeSort (fun a b => decide (k a ≤ k b))).Pairwise
      (fun a b => k a ≤ k b) := by
  have h := @List.sorted_mergeSort _ (fun a b => decide (k a ≤ k b))
      (fun a b c h1 h2 =>
        decide_eq_true (le_trans (of_decide_eq_true h1) (of_decide_eq_true h2)))
      (fun a b => by rcases le_total (k a) (k b) with h | h <;> simp [h]) l
  exact h.imp (fun hab => of_decide_eq_true hab)

theorem pairwise_key_desc {α β : Type} [LinearOrder β] (k : α → β) (l : List α) :
    (l.mergeSort (fun a b => decide (k b ≤ k a))).Pairwise
      (fun a b => k b ≤ k a) := by
  have h := @List.sorted_mergeSort _ (fun a b => decide (k b ≤ k a))
      (fun a b c h1 h2 =>
        decide_eq_true (le_trans (of_decide_eq_true h2) (of_decide_eq_true h1)))
      (fun a b => by rcases le_total (k b) (k a) with h | h <;> simp [h]) l
  exact h.imp (fun hab => of_decide_eq_true hab)

theorem mergeSort_desc_of_asc_sorted {α β : Type} [LinearOrder β] (k : α → β)
    (l : List α) (hs : l.Pairwise fun a b => k a ≤ k b)
    (hd : l.Pairwise fun a b => k a ≠ k b) :
    l.mergeSort (fun a b => decide (k b ≤ k a)) = l.reverse := by
  have hperm : List.Perm (l.mergeSort (fun a b => decide (k b ≤ k a))) l :=
    List.mergeSort_perm l _
  have hsorted := pairwise_key_desc k l
  have hd2 : (l.mergeSort (fun a b => decide (k b ≤ k a))).Pairwise
      (fun a b => k a ≠ k b) :=
    (hperm.pairwise_iff (fun hab he => hab he.symm)).mpr hd
  have hstrict : (l.mergeSort (fun a b => decide (k b ≤ k a))).Pairwise
      (fun a b => k b < k a) :=
    (hsorted.and hd2).imp (fun h => lt_of_le_of_ne h.1 (fun he => h.2 he.symm))
  have hrevsorted : l.reverse.Pairwise fun a b => k b < k a := by
    rw [List.pairwise_reverse]
    exact (hs.and hd).imp (fun h => lt_of_le_of_ne h.1 h.2)
  have hperm2 : List.Perm (l.mergeSort (fun a b => decide (k b ≤ k a))) l.reverse :=
    hperm.trans l.reverse_perm.symm
  haveI : IsAntisymm α (fun a b => k b < k a) :=
    ⟨fun a b h1 h2 => absurd (lt_trans h1 h2) (lt_irrefl _)⟩
  exact List.eq_of_perm_of_sorted hperm2 hstrict hrevsorted

theorem mergeSort_asc_of_desc_sorted {α β : Type} [LinearOrder β] (k : α → β)
    (l : List α) (hs : l.Pairwise fun a b => k b ≤ k a)
    (hd : l.Pairwise fun a b => k a ≠ k b) :
    l.mergeSort (fun a b => decide (k a ≤ k b)) = l.reverse := by
  have hperm : List.Perm (l.mergeSort (fun a b => decide (k a ≤ k b))) l :=
    List.mergeSort_perm l _
  have hsorted := pairwise_key_asc k l
  have hd2 : (l.mergeSort (fun a b => decide (k a ≤ k b))).Pairwise
      (fun a b => k a ≠ k b) :=
    (hperm.pairwise_iff (fun hab he => hab he.symm)).mpr hd
  have hstrict : (l.mergeSort (fun a b => decide (k a ≤ k b))).Pairwise
      (fun a b => k a < k b) :=
    (hsorted.and hd2).imp (fun h => lt_of_le_of_ne h.1 h.2)
  have hrevsorted : l.reverse.Pairwise fun a b => k a < k b := by
    rw [List.pairwise_reverse]
    exact (hs.and hd).imp (fun h => lt_of_le_of_ne h.1 (fun he => h.2 he.symm))
  have hperm2 : List.Perm (l.mergeSort (fun a b => decide (k a ≤ k b))) l.reverse :=
    hperm.trans l.reverse_perm.symm
  haveI : IsAntisymm α (fun a b => k a < k b) :=
    ⟨fun a b h1 h2 => absurd (lt_trans h1 h2) (lt_irrefl _)⟩
  exact List.eq_of_perm_of_sorted hperm2 hstrict hrevsorted

theorem sortLe_asc_eq {β : Type} [LinearOrder β] (k : BeerRecord → β)
    (col : String) (m : List (String × AvailRow))
    (hk : ∀ a b, sortComparator col m a b = threeWay (k a) (k b)) :
    sortLe col m SortDir.asc = fun a b => decide (k a ≤ k b) := by
  funext a b
  unfold sortLe dirSign
  rw [hk]
  exact decide_eq_decide.mpr (threeWay_nonpos _ _)

theorem sortLe_desc_eq {β : Type} [LinearOrder β] (k : BeerRecord → β)
    (col : String) (m : List (String × AvailRow))
    (hk : ∀ a b, sortComparator col m a b = threeWay (k a) (k b)) :
    sortLe col m SortDir.desc = fun a b => decide (k b ≤ k a) := by
  funext a b
  unfold sortLe dirSign
  rw [hk]
  exact decide_eq_decide.mpr (neg_nonpos.trans (threeWay_nonneg _ _))

theorem sortTwice_of_key {β : Type} [LinearOrder β] (k : BeerRecord → β)
    (col : String) (m : List (String × AvailRow))
    (hk : ∀ a b, sortComparator col m a b = threeWay (k a) (k b))
    (st : SortState) (records : List BeerRecord)
    (hne : records.Pairwise fun a b => sortComparator col m a b ≠ 0) :
    (sortTable (sortTable st m records col).1 m (sortTable st m records col).2 col).2
      = (sortTable st m records col).2.reverse := by
  have hnek : records.Pairwise fun a b => k a ≠ k b :=
    hne.imp (fun h => (threeWay_ne_zero _ _).mp (by rwa [hk] at h))
  have hc1 : (toggleSort st col).column = some col := by
    unfold toggleSort
    by_cases h : st.column = some col <;> simp [h]
  have hc2 : toggleSort (toggleSort st col) col
      = ⟨some col, flipDir (toggleSort st col).direction⟩ := by
    unfold toggleSort
    by_cases h : st.column = some col <;> simp [h]
  show (List.mergeSort _ (sortLe col m (toggleSort (toggleSort st col) col).direction)) = _
  rw [hc2]
  cases hd1 : (toggleSort st col).direction with
  | asc =>
      show ((records.mergeSort (sortLe col m (toggleSort st col).direction)).mergeSort
          (sortLe col m (flipDir SortDir.asc)))
        = (records.mergeSort (sortLe col m (toggleSort st col).direction)).reverse
      rw [hd1]
      show ((records.mergeSort (sortLe col m SortDir.asc)).mergeSort
          (sortLe col m SortDir.desc))
        = (records.mergeSort (sortLe col m SortDir.asc)).reverse
      rw [sortLe_asc_eq k col m hk, sortLe_desc_eq k col m hk]
      apply mergeSort_desc_of_asc_sorted k _ (pairwise_key_asc k records)
      exact ((List.mergeSort_perm records _).pairwise_iff
        (fun hab he => hab he.symm)).mpr hnek
  | desc =>
      show ((records.mergeSort (sortLe col m (toggleSort st col).direction)).mergeSort
          (sortLe col m (flipDir SortDir.desc)))
        = (records.mergeSort (sortLe col m (toggleSort st col).direction)).reverse
      rw [hd1]
      show ((records.mergeSort (sortLe col m SortDir.desc)).mergeSort
          (sortLe col m SortDir.asc))
        = (records.mergeSort (sortLe col m SortDir.desc)).reverse
      rw [sortLe_asc_eq k col m hk, sortLe_desc_eq k col m hk]
      apply mergeSort_asc_of_desc_sorted k _ (pairwise_key_desc k records)
      exact ((List.mergeSort_perm records _).pairwise_iff
        (fun hab he => hab he.symm)).mpr hnek

/-- C8: invoking the sort with the active column flips the direction and
with any other column resets it to ascending with that column active;
consequently sorting and sorting again on the same column reverses the
resulting order exactly whenever the sort keys of that column have no
ties among the records. -/
theorem sortTable_spec (st : SortState) (m : List (String × AvailRow))
    (records : List BeerRecord) (col : String)
    (hne : records.Pairwise fun a b => sortComparator col m a b ≠ 0) :
    toggleSort st col
      = ⟨some col, if st.column = some col then flipDir st.direction
                   else SortDir.asc⟩ ∧
    (sortTable (sortTable st m records col).1 m (sortTable st m records col).2 col).2
      = (sortTable st m records col).2.reverse := by
  constructor
  · unfold toggleSort
    by_cases h : st.column = some col <;> simp [h]
  · by_cases h1 : col = "abv"
    · subst h1
      exact sortTwice_of_key (fun b => b.abv) "abv" m
        (fun a b => by simp [sortComparator]) st records hne
    · by_cases h2 : col = "last_seen"
      · subst h2
        exact sortTwice_of_key (lastSeenVal m) "last_seen" m
          (fun a b => by simp [sortComparator]) st records hne
      · exact sortTwice_of_key (fun b => lowerStr (fieldStr col b)) col m
          (fun a b => by simp [sortComparator, h1, h2]) st records hne

theorem sortTable_spec_witness :
    toggleSort ⟨none, SortDir.asc⟩ "abv"
      = ⟨some "abv", if (⟨none, SortDir.asc⟩ : SortState).column = some "abv"
                     then flipDir SortDir.asc else SortDir.asc⟩ ∧
    (sortTable (sortTable ⟨none, SortDir.asc⟩ [] [beer5, beer4] "abv").1 []
        (sortTable ⟨none, SortDir.asc⟩ [] [beer5, beer4] "abv").2 "abv").2
      = (sortTable ⟨none, SortDir.asc⟩ [] [beer5, beer4] "abv").2.reverse :=
  sortTable_spec ⟨none, SortDir.asc⟩ [] [beer5, beer4] "abv" (by decide)

/-! Availability toggle against the remote store. -/

/-- Embedding of a row of the remote beer_availability table; updated_at
models the stored timestamp as a number. -/
structure DbRow where
  brewery : String
  beer_name : String
  is_available : Bool
  updated_by : String
  updated_at : Nat
deriving Repr, DecidableEq

/-- Point read of the store by its key, modelling the select filtered on
brewery and beer_name. -/
def dbFind (db : List DbRow) (brewery beer : String) : Option DbRow :=
  db.find? (fun r => r.brewery == brewery && r.beer_name == beer)

/-- The availability truth read from the store: false when absent. -/
def dbCurrentStatus (db : List DbRow) (brewery beer : String) : Bool :=
  match dbFind db brewery beer with
  | some r => r.is_available
  | none => false

/-- Update write path: every row matching the key receives the new
boolean, actor and timestamp. -/
def dbUpdate (db : List DbRow) (brewery beer : String) (v : Bool)
    (userId : String) (now : Nat) : List DbRow :=
  db.map (fun r =>
    if r.brewery == brewery && r.beer_name == beer then
      { r with is_available := v, updated_by := userId, updated_at := now }
    else r)

/-- Embedding of toggleBeerAvailability in its later revision: a fresh
point read of the store, the boolean flipped, then an update when the
record exists and an insert when it does not, carrying the actor
identifier and the current timestamp. -/
def toggleBeerAvailability (db : List DbRow) (brewery beer userId : String)
    (now : Nat) : List DbRow :=
  let newStatus := !(dbCurrentStatus db brewery beer)
  match dbFind db brewery beer with
  | some _ => dbUpdate db brewery beer newStatus userId now
  | none => db ++ [⟨brewery, beer, newStatus, userId, now⟩]

theorem dbFind_update (db : List DbRow) (b n : String) (v : Bool)
    (u : String) (t : Nat) :
    dbFind (dbUpdate db b n v u t) b n
      = (dbFind db b n).map (fun _ => (⟨b, n, v, u, t⟩ : DbRow)) := by
  induction db with
  | nil => rfl
  | cons r rest ih =>
      by_cases hr : (r.brewery == b && r.beer_name == n) = true
      · have h1 : r.brewery = b := by
          have := (Bool.and_eq_true _ _).mp hr
          exact eq_of_beq this.1
        have h2 : r.beer_name = n := by
          have := (Bool.and_eq_true _ _).mp hr
          exact eq_of_beq this.2
        unfold dbUpdate dbFind
        rw [List.map_cons, if_pos hr]
        simp [List.find?_cons, hr, h1, h2]
      · rw [Bool.not_eq_true] at hr
        unfold dbUpdate dbFind
        rw [List.map_cons, if_neg (by simp [hr])]
        simp only [List.find?_cons, hr]
        exact ih

theorem dbCurrentStatus_of_find (db : List DbRow) (b n : String) (r : DbRow)
    (h : dbFind db b n = some r) : dbCurrentStatus db b n = r.is_available := by
  unfold dbCurrentStatus
  rw [h]

theorem dbFind_toggle (db : List DbRow) (b n u : String) (t : Nat) :
    dbFind (toggleBeerAvailability db b n u t) b n
      = some ⟨b, n, !(dbCurrentStatus db b n), u, t⟩ := by
  unfold toggleBeerAvailability
  cases h : dbFind db b n with
  | none =>
      show dbFind (db ++ [⟨b, n, !(dbCurrentStatus db b n), u, t⟩]) b n = _
      unfold dbFind at h ⊢
      rw [List.find?_append, h, Option.none_or]
      rw [List.find?_cons_of_pos _ (by simp)]
  | some r =>
      show dbFind (dbUpdate db b n (!(dbCurrentStatus db b n)) u t) b n = _
      rw [dbFind_update, h]
      rfl

/-- C9: with both store operations succeeding, toggling the availability
of a record twice returns the stored and read boolean to its original
value, each toggle stamps the fresh timestamp, and the stored updated_at
strictly increases across the two toggles and over any pre-existing
record, whenever the timestamps are strictly increasing. -/
theorem toggleTwice_spec (db : List DbRow) (b n u1 u2 : String) (t1 t2 : Nat)
    (h12 : t1 < t2)
    (h0 : ∀ r, dbFind db b n = some r → r.updated_at < t1) :
    dbCurrentStatus
        (toggleBeerAvailability (toggleBeerAvailability db b n u1 t1) b n u2 t2)
        b n
      = dbCurrentStatus db b n ∧
    dbCurrentStatus (toggleBeerAvailability db b n u1 t1) b n
      = !(dbCurrentStatus db b n) ∧
    dbFind (toggleBeerAvailability db b n u1 t1) b n
      = some ⟨b, n, !(dbCurrentStatus db b n), u1, t1⟩ ∧
    dbFind (toggleBeerAvailability (toggleBeerAvailability db b n u1 t1) b n u2 t2)
        b n
      = some ⟨b, n, dbCurrentStatus db b n, u2, t2⟩ ∧
    (∀ r1 r2, dbFind (toggleBeerAvailability db b n u1 t1) b n = some r1 →
        dbFind
            (toggleBeerAvailability (toggleBeerAvailability db b n u1 t1) b n u2 t2)
            b n
          = some r2 →
        r1.updated_at < r2.updated_at ∧
        ∀ r0, dbFind db b n = some r0 → r0.updated_at < r1.updated_at) := by
  have hA := dbFind_toggle db b n u1 t1
  have hs1 : dbCurrentStatus (toggleBeerAvailability db b n u1 t1) b n
      = !(dbCurrentStatus db b n) := by
    have h := dbCurrentStatus_of_find _ _ _ _ hA
    simpa using h
  have hB := dbFind_toggle (toggleBeerAvailability db b n u1 t1) b n u2 t2
  rw [hs1, Bool.not_not] at hB
  have hs2 : dbCurrentStatus
      (toggleBeerAvailability (toggleBeerAvailability db b n u1 t1) b n u2 t2) b n
      = dbCurrentStatus db b n := by
    have h := dbCurrentStatus_of_find _ _ _ _ hB
    simpa using h
  refine ⟨hs2, hs1, hA, hB, ?_⟩
  intro r1 r2 hr1 hr2
  rw [hA] at hr1
  rw [hB] at hr2
  cases hr1
  cases hr2
  exact ⟨h12, fun r0 hr0 => h0 r0 hr0⟩

theorem toggleTwice_spec_witness :
    dbCurrentStatus
        (toggleBeerAvailability (toggleBeerAvailability [] "Brewer A" "Golden" "User_a" 1)
          "Brewer A" "Golden" "User_b" 2) "Brewer A" "Golden"
      = dbCurrentStatus [] "Brewer A" "Golden" ∧
    dbCurrentStatus (toggleBeerAvailability [] "Brewer A" "Golden" "User_a" 1)
        "Brewer A" "Golden"
      = !(dbCurrentStatus [] "Brewer A" "Golden") ∧
    dbFind (toggleBeerAvailability [] "Brewer A" "Golden" "User_a" 1)
        "Brewer A" "Golden"
      = some ⟨"Brewer A", "Golden", !(dbCurrentStatus [] "Brewer A" "Golden"),
              "User_a", 1⟩ ∧
    dbFind (toggleBeerAvailability (toggleBeerAvailability [] "Brewer A" "Golden" "User_a" 1)
          "Brewer A" "Golden" "User_b" 2) "Brewer A" "Golden"
      = some ⟨"Brewer A", "Golden", dbCurrentStatus [] "Brewer A" "Golden",
              "User_b", 2⟩ ∧
    (∀ r1 r2,
        dbFind (toggleBeerAvailability [] "Brewer A" "Golden" "User_a" 1)
            "Brewer A" "Golden"
          = some r1 →
        dbFind (toggleBeerAvailability (toggleBeerAvailability [] "Brewer A" "Golden" "User_a" 1)
              "Brewer A" "Golden" "User_b" 2) "Brewer A" "Golden"
          = some r2 →
        r1.updated_at < r2.updated_at ∧
        ∀ r0, dbFind [] "Brewer A" "Golden" = some r0 →
          r0.updated_at < r1.updated_at) :=
  toggleTwice_spec [] "Brewer A" "Golden" "User_a" "User_b" 1 2 (by decide)
    (fun r hr => Option.noConfusion hr)

theorem sep_split_unique {γ : Type} (sep : γ) :
    ∀ l1 l2 r1 r2 : List γ, sep ∉ l1 → sep ∉ l2 →
      l1 ++ sep :: r1 = l2 ++ sep :: r2 → l1 = l2 ∧ r1 = r2 := by
  intro l1
  induction l1 with
  | nil =>
      intro l2 r1 r2 _ h2 heq
      cases l2 with
      | nil =>
          rw [List.nil_append, List.nil_append] at heq
          exact ⟨rfl, (List.cons_eq_cons.mp heq).2⟩
      | cons c u =>
          rw [List.nil_append, List.cons_append] at heq
          have hc := (List.cons_eq_cons.mp heq).1
          rw [hc] at h2
          exact absurd (List.mem_cons_self c u) h2
  | cons a t ih =>
      intro l2 r1 r2 h1 h2 heq
      cases l2 with
      | nil =>
          rw [List.nil_append, List.cons_append] at heq
          have hc := (List.cons_eq_cons.mp heq).1
          rw [← hc] at h1
          exact absurd (List.mem_cons_self a t) h1
      | cons c u =>
          rw [List.cons_append, List.cons_append] at heq
          obtain ⟨hac, hrest⟩ := List.cons_eq_cons.mp heq
          obtain ⟨h3, h4⟩ := ih u r1 r2
            (fun hm => h1 (List.mem_cons_of_mem _ hm))
            (fun hm => h2 (List.mem_cons_of_mem _ hm)) hrest
          exact ⟨by rw [hac, h3], h4⟩

/-- C10: the composite availability key concatenates brewery, a vertical
bar and the beer name; it is not injective on arbitrary pairs, as two
distinct pairs share one key, so availability lookup distinguishes
records only when the brewery contains no vertical bar, under which
precondition the key is injective. -/
theorem availabilityKey_spec :
    availabilityKey "a|b" "c" = availabilityKey "a" "b|c" ∧
    (("a|b", "c") : String × String) ≠ ("a", "b|c") ∧
    (∀ b1 n1 b2 n2 : String,
        (∀ c ∈ b1.data, c ≠ '|') → (∀ c ∈ b2.data, c ≠ '|') →
        availabilityKey b1 n1 = availabilityKey b2 n2 → b1 = b2 ∧ n1 = n2) := by
  refine ⟨by decide, by decide, ?_⟩
  intro b1 n1 b2 n2 h1 h2 heq
  unfold availabilityKey at heq
  have hdata : b1.data ++ '|' :: n1.data = b2.data ++ '|' :: n2.data := by
    have h := congrArg String.data heq
    simpa using h
  have hnot1 : '|' ∉ b1.data := fun hm => (h1 _ hm) rfl
  have hnot2 : '|' ∉ b2.data := fun hm => (h2 _ hm) rfl
  obtain ⟨hb, hn⟩ := sep_split_unique '|' b1.data b2.data n1.data n2.data
    hnot1 hnot2 hdata
  exact ⟨String.ext hb, String.ext hn⟩

theorem availabilityKey_spec_witness :
    (∀ c ∈ ("Brewer A" : String).data, c ≠ '|') ∧
    ("Brewer A" = "Brewer A" ∧ "Golden" = "Golden") :=
  ⟨by decide,
   availabilityKey_spec.2.2 "Brewer A" "Golden" "Brewer A" "Golden"
     (by decide) (by decide) rfl⟩

end Chappel
